import Mathlib

/-!
Verification of the xover trading engine's core analytics against its
natural-language specification.

The Python sources are shallowly embedded:

* dates are abstract business-day indices (`ℕ`); `pd.date_range(a, b, freq="B")`
  becomes the list of consecutive indices from `a` to `b` (all date logic in the
  engine is pure comparison and equality, so only the order of the index matters);
* floats are modelled as `ℚ`; a pandas/NumPy NaN (absent `exit_date`, absent
  `ret`, absent `rule_quality_score`) is modelled as `Option.none`, and every
  place the Python code compares against a possibly-NaN value is translated with
  the pandas semantics of that comparison (NaN compares false);
* DataFrames become lists of records, groupby becomes filtering by key,
  `sort_values` becomes a stable insertion sort (the engine's claims do not
  depend on the tie-break order of pandas' quicksort);
* `pd.Series.std` (ddof=1) returns NaN for fewer than two observations, and the
  detector compares `std < 0.01`; since both sides are non-negative this is
  embedded division-free as `variance < 0.01²` guarded by `2 ≤ n`.
-/

/-! ## Generic list helpers -/

/-- Insertion of `x` into `l` in front of the first element `y` with `le x y`. -/
def insertBy {α : Type} (le : α → α → Bool) (x : α) : List α → List α
  | [] => [x]
  | y :: ys => if le x y then x :: y :: ys else y :: insertBy le x ys

/-- Stable insertion sort by a boolean comparison (stands in for pandas
`sort_values`; stability versus pandas' quicksort is immaterial to the claims). -/
def sortBy {α : Type} (le : α → α → Bool) : List α → List α
  | [] => []
  | x :: xs => insertBy le x (sortBy le xs)

/-- Running products of a list, seeded with `acc` (pandas `cumprod`). -/
def cumprodAux (acc : ℚ) : List ℚ → List ℚ
  | [] => []
  | x :: xs => (acc * x) :: cumprodAux (acc * x) xs

/-- Cumulative product of a list (pandas `Series.cumprod`). -/
def cumprod (l : List ℚ) : List ℚ := cumprodAux 1 l

/-- Minimum of a list of dates, with the empty list mapped to `0` (the Python
code indexes `all_dates[0]` of a non-empty list; callers guard emptiness). -/
def listMinD (l : List ℕ) : ℕ :=
  match l with
  | [] => 0
  | x :: xs => xs.foldl min x

/-- Maximum of a list of dates, with the empty list mapped to `0`. -/
def listMaxD (l : List ℕ) : ℕ :=
  match l with
  | [] => 0
  | x :: xs => xs.foldl max x

/-- The business-day index range `[a, b]` (for `pd.date_range(a, b, freq="B")`,
with days renumbered consecutively). -/
def dateRange (a b : ℕ) : List ℕ := List.range' a (b + 1 - a)

/-! ## Rule identity (`backtest/rule_scoring.py`, `generate_rule_id`)

`generate_rule_id` serializes the rule-parameter dict with
`json.dumps(rule_params, sort_keys=True)`, feeds the UTF-8 bytes through SHA-1
and formats the first 8 hex digits, uppercased, behind `R_`. The dict is
embedded as an association list so that independence from insertion/iteration
order is a provable statement rather than a representation artifact. -/

/-- A JSON value as it appears in a rule-parameter dict: a numeric token
(already rendered, standing for Python's `repr` of an int or float) or a
string. -/
inductive JVal where
  | jnum (tok : String)
  | jstr (s : String)
deriving DecidableEq, Repr

/-- JSON string escaping for the characters that need it in this engine's
group names (quote and backslash; `json.dumps`'s control/non-ASCII escapes are
not exercised by the data model). -/
def jsonEscapeChar (c : Char) : List Char :=
  if c = Char.ofNat 34 then [Char.ofNat 92, Char.ofNat 34]
  else if c = Char.ofNat 92 then [Char.ofNat 92, Char.ofNat 92]
  else [c]

/-- A JSON string literal with its quotes. -/
def jsonStr (s : String) : String :=
  "\"" ++ String.mk (s.data.flatMap jsonEscapeChar) ++ "\""

/-- Rendering of one JSON value. -/
def renderJVal : JVal → String
  | .jnum t => t
  | .jstr s => jsonStr s

/-- One `"key": value` item of the serialized dict. -/
def renderEntry (e : String × JVal) : String :=
  jsonStr e.1 ++ ": " ++ renderJVal e.2

/-- Ordering of dict entries by key, as `sort_keys=True` sorts them. -/
def keyLe (a b : String × JVal) : Prop := a.1 ≤ b.1

instance : DecidableRel keyLe := fun a b => inferInstanceAs (Decidable (a.1 ≤ b.1))

instance : IsTotal (String × JVal) keyLe := ⟨fun a b => le_total a.1 b.1⟩

instance : IsTrans (String × JVal) keyLe := ⟨fun _ _ _ h h' => le_trans h h'⟩

/-- The canonical serialization `json.dumps(rule_params, sort_keys=True)`:
entries sorted by key, joined with `", "` between braces, `": "` inside. -/
def jsonDumpsSorted (entries : List (String × JVal)) : String :=
  "\x7b" ++ String.intercalate ", " ((List.insertionSort keyLe entries).map renderEntry) ++ "\x7d"

/-- UTF-8 encoding of one character. -/
def utf8Char (c : Char) : List ℕ :=
  let n := c.toNat
  if n < 128 then [n]
  else if n < 2048 then [192 + n / 64, 128 + n % 64]
  else if n < 65536 then [224 + n / 4096, 128 + (n / 64) % 64, 128 + n % 64]
  else [240 + n / 262144, 128 + (n / 4096) % 64, 128 + (n / 64) % 64, 128 + n % 64]

/-- UTF-8 encoding of a string (`.encode("utf-8")`), as a byte list. -/
def utf8Bytes (s : String) : List ℕ := (s.data.map utf8Char).flatten

/-! SHA-1 over byte lists, words as `ℕ` reduced mod `2^32`. -/

/-- Truncation to a 32-bit word. -/
def w32 (n : ℕ) : ℕ := n % 4294967296

/-- Left rotation of a 32-bit word by `b` bits. -/
def rotl32 (b n : ℕ) : ℕ := w32 (n * 2 ^ b + n / 2 ^ (32 - b))

/-- Big-endian byte rendering of `v` on `k` bytes. -/
def beBytes : ℕ → ℕ → List ℕ
  | 0, _ => []
  | k + 1, v => beBytes k (v / 256) ++ [v % 256]

/-- Big-endian packing of bytes into 32-bit words. -/
def bytesToWords : List ℕ → List ℕ
  | b0 :: b1 :: b2 :: b3 :: rest =>
      (((b0 * 256 + b1) * 256 + b2) * 256 + b3) :: bytesToWords rest
  | _ => []

/-- SHA-1 padding: `0x80`, zeros to 56 mod 64, then the bit length on 8 bytes. -/
def sha1pad (msg : List ℕ) : List ℕ :=
  let len := msg.length
  let zeros := (55 + 64 - len % 64) % 64
  msg ++ [128] ++ List.replicate zeros 0 ++ beBytes 8 (len * 8)

/-- Splitting the padded message into 64-byte blocks. -/
def chunks64 : List ℕ → List (List ℕ)
  | [] => []
  | x :: xs => ((x :: xs).take 64) :: chunks64 ((x :: xs).drop 64)
termination_by l => l.length
decreasing_by simp; omega

/-- Message-schedule extension: appends `n` further words, each the 1-rotation
of the XOR of the words 3, 8, 14 and 16 positions back. -/
def extendLoop : ℕ → List ℕ → List ℕ
  | 0, acc => acc
  | n + 1, acc =>
      let i := acc.length
      let fresh := rotl32 1 (Nat.xor (Nat.xor (acc.getD (i - 3) 0) (acc.getD (i - 8) 0))
        (Nat.xor (acc.getD (i - 14) 0) (acc.getD (i - 16) 0)))
      extendLoop n (acc ++ [fresh])

/-- The SHA-1 round function for round `t`. -/
def sha1f (t b c d : ℕ) : ℕ :=
  if t < 20 then Nat.lor (Nat.land b c) (Nat.land (w32 (Nat.xor b 4294967295)) d)
  else if t < 40 then Nat.xor (Nat.xor b c) d
  else if t < 60 then Nat.lor (Nat.lor (Nat.land b c) (Nat.land b d)) (Nat.land c d)
  else Nat.xor (Nat.xor b c) d

/-- The SHA-1 round constant for round `t`. -/
def sha1k (t : ℕ) : ℕ :=
  if t < 20 then 1518500249
  else if t < 40 then 1859775393
  else if t < 60 then 2400959708
  else 3395469782

/-- The 80 compression rounds over the extended schedule. -/
def sha1rounds (t : ℕ) (ws : List ℕ) (st : ℕ × ℕ × ℕ × ℕ × ℕ) : ℕ × ℕ × ℕ × ℕ × ℕ :=
  match ws with
  | [] => st
  | w :: rest =>
      match st with
      | (a, b, c, d, e) =>
        let temp := w32 (rotl32 5 a + sha1f t b c d + e + sha1k t + w)
        sha1rounds (t + 1) rest (temp, a, rotl32 30 b, c, d)

/-- One 64-byte block folded into the running hash state. -/
def sha1chunk (h : ℕ × ℕ × ℕ × ℕ × ℕ) (chunk : List ℕ) : ℕ × ℕ × ℕ × ℕ × ℕ :=
  let ws := extendLoop 64 (bytesToWords chunk)
  match sha1rounds 0 ws h with
  | (a, b, c, d, e) =>
      (w32 (h.1 + a), w32 (h.2.1 + b), w32 (h.2.2.1 + c), w32 (h.2.2.2.1 + d), w32 (h.2.2.2.2 + e))

/-- The SHA-1 digest of a byte list, as 20 bytes. -/
def sha1bytes (msg : List ℕ) : List ℕ :=
  let fin := (chunks64 (sha1pad msg)).foldl sha1chunk
    (1732584193, 4023233417, 2562383102, 271733878, 3285377520)
  beBytes 4 fin.1 ++ beBytes 4 fin.2.1 ++ beBytes 4 fin.2.2.1 ++
    beBytes 4 fin.2.2.2.1 ++ beBytes 4 fin.2.2.2.2

/-- Lower-case hex digit. -/
def hexChar (n : ℕ) : Char :=
  if n < 10 then Char.ofNat (48 + n) else Char.ofNat (87 + n)

/-- Two hex digits of one byte. -/
def byteHex (b : ℕ) : String := String.mk [hexChar (b / 16), hexChar (b % 16)]

/-- `hexdigest()` of a byte list. -/
def hexOfBytes (bs : List ℕ) : String := String.join (bs.map byteHex)

/-- Upper-casing of a hex string (`.upper()`). -/
def upperHex (s : String) : String := String.mk (s.data.map Char.toUpper)

/-- `generate_rule_id`: SHA-1 of the canonical (key-sorted) JSON serialization
of the rule parameters; first 8 hex digits, uppercased, behind `R_`. -/
def generate_rule_id (rule_params : List (String × JVal)) : String :=
  let canonical := jsonDumpsSorted rule_params
  let h := hexOfBytes (sha1bytes (utf8Bytes canonical))
  let short := upperHex (String.mk (h.data.take 8))
  "R_" ++ short

/-- The RuleKey: the 7 fields of `RULE_KEY_COLS` that uniquely identify a rule. -/
structure RuleKey where
  lookback : ℕ
  group_thresh : ℚ
  participation : ℚ
  lagger_max_move : ℚ
  entry_lag : ℕ
  hold_days : ℕ
  group : String
deriving DecidableEq, Repr

/-- The rule-parameter dict `{k: row[k] for k in RULE_KEY_COLS}`, built in
`RULE_KEY_COLS` order; numeric fields rendered to their numeral tokens. -/
def ruleParams (k : RuleKey) : List (String × JVal) :=
  [("lookback", JVal.jnum (toString k.lookback)),
   ("group_thresh", JVal.jnum (toString k.group_thresh)),
   ("participation", JVal.jnum (toString k.participation)),
   ("lagger_max_move", JVal.jnum (toString k.lagger_max_move)),
   ("entry_lag", JVal.jnum (toString k.entry_lag)),
   ("hold_days", JVal.jnum (toString k.hold_days)),
   ("group", JVal.jstr k.group)]

/-- A concrete RuleKey used to instantiate hypotheses of the identity theorems. -/
def wKey : RuleKey :=
  { lookback := 10, group_thresh := mkRat 3 100, participation := mkRat 3 5,
    lagger_max_move := mkRat 1 100, entry_lag := 1, hold_days := 5, group := "TECH" }

/-! ## Trade records (`backtest/trade_generator.py` output schema)

One row of the trade DataFrame. `exit_date`/`ret` are `none` for open trades
(pandas NaT/NaN); `rule_id`/`rule_quality_score` are `none` before the second
pass attaches scored-rule metadata. -/

/-- A trade row. -/
structure Trade where
  group : String
  ticker : String
  direction : ℤ
  signal_date : ℕ
  entry_date : ℕ
  exit_date : Option ℕ
  entry_lag : ℕ
  hold_days : ℕ
  lookback : ℕ
  group_thresh : ℚ
  participation : ℚ
  lagger_max_move : ℚ
  ret : Option ℚ
  leaders : String
  is_open : Bool
  rule_id : Option String
  rule_quality_score : Option ℚ
deriving DecidableEq, Repr

/-- The 7-field RuleKey of a trade row (`RULE_KEY_COLS`). -/
def ruleKeyOf (t : Trade) : RuleKey :=
  { lookback := t.lookback, group_thresh := t.group_thresh,
    participation := t.participation, lagger_max_move := t.lagger_max_move,
    entry_lag := t.entry_lag, hold_days := t.hold_days, group := t.group }

/-! ## Rule scoring (`backtest/rule_scoring.py`, `score_rules`)

`score_rules` groups by `RULE_KEY_COLS` and aggregates the `ret` column with
`size` (all rows of the group, NaN or not), `mean` (pandas skips NaN),
`np.mean(x > 0.0)` (NaN compares false but stays in the denominator) and
`min` (skips NaN; NaN when every ret is NaN). -/

/-- One output row of `score_rules`. -/
structure RuleStatsRow where
  key : RuleKey
  n_trades : ℕ
  avg_ret_full : Option ℚ
  win_rate : ℚ
  max_dd : Option ℚ
  rule_id : String
  rule_quality_score : Option ℚ
deriving DecidableEq, Repr

/-- `_compute_rule_quality`: `(avg_ret * win_rate * penalty) / max(1e-6, |max_dd|)`
with the small-sample penalty 0.5 below 50 trades and 0.8 below 200. -/
def compute_rule_quality (avg_ret win_rate max_dd : ℚ) (n_trades : ℕ) : ℚ :=
  let penalty : ℚ := if n_trades < 50 then mkRat 1 2 else if n_trades < 200 then mkRat 4 5 else 1
  let dd_term := max (mkRat 1 1000000) |max_dd|
  avg_ret * win_rate * penalty / dd_term

/-- The distinct RuleKeys of a trade table (the groupby keys; pandas sorts
them, but only the per-key aggregates matter to the claims). -/
def groupKeys (trades : List Trade) : List RuleKey :=
  (trades.map ruleKeyOf).dedup

/-- The aggregate row `score_rules` emits for the group of key `k`. -/
def aggForKey (trades : List Trade) (k : RuleKey) : RuleStatsRow :=
  let g := trades.filter (fun t => decide (ruleKeyOf t = k))
  let rets := g.filterMap Trade.ret
  let nPos := (g.filter (fun t =>
    match t.ret with
    | some r => decide (0 < r)
    | none => false)).length
  let avg : Option ℚ := if rets.isEmpty then none else some (rets.sum / (rets.length : ℚ))
  let win : ℚ := (nPos : ℚ) / (g.length : ℚ)
  { key := k
    n_trades := g.length
    avg_ret_full := avg
    win_rate := win
    max_dd := rets.min?
    rule_id := generate_rule_id (ruleParams k)
    rule_quality_score :=
      match avg, rets.min? with
      | some a, some d => some (compute_rule_quality a win d g.length)
      | _, _ => none }

/-- `score_rules`: one aggregate row per distinct RuleKey. -/
def score_rules (trades : List Trade) : List RuleStatsRow :=
  (groupKeys trades).map (aggForKey trades)

/-! ## Portfolio simulator (`backtest/portfolio.py`) -/

/-- `MAX_CONCURRENT_TRADES`. -/
def MAX_CONCURRENT_TRADES : ℕ := 3

/-- The simulator state: the bounded working set and the ledger. -/
structure PortState where
  open_trades : List Trade
  used_trades : List Trade
deriving DecidableEq, Repr

/-- The initial state of `_run_static_portfolio`'s day loop. -/
def initPortState : PortState := { open_trades := [], used_trades := [] }

/-- `tr["exit_date"] < day` with pandas NaT semantics: a comparison against an
absent exit date is false, so such a trade is never released. -/
def exitBefore (t : Trade) (day : ℕ) : Bool :=
  match t.exit_date with
  | none => false
  | some e => decide (e < day)

/-- The release step: open trades whose exit date lies strictly before `day`
move (in order) to the ledger. -/
def releaseStep (day : ℕ) (s : PortState) : PortState :=
  { open_trades := s.open_trades.filter (fun t => ! exitBefore t day),
    used_trades := s.used_trades ++ s.open_trades.filter (fun t => exitBefore t day) }

/-- Descending comparison on `rule_quality_score` for the admission sort
(`sort_values(..., ascending=False)`; NaN sorts last). -/
def scoreDescLe (a b : Trade) : Bool :=
  match a.rule_quality_score, b.rule_quality_score with
  | none, none => true
  | none, some _ => false
  | some _, none => true
  | some qa, some qb => decide (qb ≤ qa)

/-- The admission-order sort of one day's entry batch: by quality score when
any score is present in the batch. (The `avg_ret` fallback column of the
Python code does not exist in this pipeline's trade schema, so an all-NaN
batch keeps its incoming order.) -/
def sortTodays (todays : List Trade) : List Trade :=
  if todays.all (fun t => t.rule_quality_score.isNone) then todays
  else sortBy scoreDescLe todays

/-- The admission loop: append each candidate while the working set holds
fewer than `MAX_CONCURRENT_TRADES` trades. -/
def admitFold (acc : List Trade) (todays : List Trade) : List Trade :=
  todays.foldl
    (fun acc tr => if acc.length < MAX_CONCURRENT_TRADES then acc ++ [tr] else acc) acc

/-- One simulated business day: release, then admit the day's entries in
priority order. -/
def stepDay (trades : List Trade) (day : ℕ) (s : PortState) : PortState :=
  let s1 := releaseStep day s
  let todays := sortTodays (trades.filter (fun t => decide (t.entry_date = day)))
  { s1 with open_trades := admitFold s1.open_trades todays }

/-- The day loop over a list of business days. -/
def runDays (trades : List Trade) (s : PortState) (days : List ℕ) : PortState :=
  days.foldl (fun st d => stepDay trades d st) s

/-- Every entry date and every present exit date of the table (the code only
uses the min and max of `sorted(set(...))`). -/
def allTradeDates (trades : List Trade) : List ℕ :=
  trades.map Trade.entry_date ++ trades.filterMap Trade.exit_date

/-- The simulated range `[min(all dates), max(all dates)]`. -/
def simDays (trades : List Trade) : List ℕ :=
  dateRange (listMinD (allTradeDates trades)) (listMaxD (allTradeDates trades))

/-- The pre-loop `trades.sort_values("entry_date")`. -/
def presorted (trades : List Trade) : List Trade :=
  sortBy (fun a b => decide (a.entry_date ≤ b.entry_date)) trades

/-- A trade counted as open on `day` (`entry_date ≤ day ≤ exit_date`; false
when the exit date is absent). -/
def isOpenOn (t : Trade) (day : ℕ) : Bool :=
  decide (t.entry_date ≤ day) &&
    (match t.exit_date with
     | none => false
     | some e => decide (day ≤ e))

/-- The closed rows of a trade table (`exit_date.notna()`). -/
def closedOf (trades : List Trade) : List Trade :=
  trades.filter (fun t => t.exit_date.isSome)

/-- The body of `_daily_returns_from_trades`'s day loop: `0` when no closed
trade is open that day, else the exit-day attribution
`(exiting["ret"] * 1/n_open).sum()`, `0` when nothing exits. -/
def dayRet (closed : List Trade) (day : ℕ) : ℚ :=
  let opens := closed.filter (fun t => isOpenOn t day)
  if opens.isEmpty then 0
  else
    let weight : ℚ := 1 / (opens.length : ℚ)
    let exiting := closed.filter (fun t => decide (t.exit_date = some day))
    if exiting.isEmpty then 0
    else (exiting.map (fun t => t.ret.getD 0 * weight)).sum

/-- `_daily_returns_from_trades`: the daily-return series over the business
days from the earliest entry to the latest exit of the closed trades; empty
when no trade is closed. -/
def daily_returns_from_trades (trades : List Trade) : List (ℕ × ℚ) :=
  let closed := closedOf trades
  if closed.isEmpty then []
  else
    let start := listMinD (closed.map Trade.entry_date)
    let stop := listMaxD (closed.filterMap Trade.exit_date)
    (dateRange start stop).map (fun day => (day, dayRet closed day))

/-- `(1.0 + daily_ret).cumprod()`, keeping the date index. -/
def equityCurve (daily : List (ℕ × ℚ)) : List (ℕ × ℚ) :=
  (daily.map Prod.fst).zip (cumprod (daily.map (fun p => 1 + p.2)))

/-- The parts of `_run_static_portfolio`'s result the claims are about
(the scalar metrics dict is downstream of `equity_curve` and not modelled). -/
structure PortfolioResult where
  equity_curve : List (ℕ × ℚ)
  used_trades : List Trade
deriving DecidableEq, Repr

/-- `_run_static_portfolio`: sort by entry date, run the day loop over the
full date range, flush still-open trades into the ledger, then build the
equity curve from the admitted set. -/
def run_static_portfolio (trades : List Trade) : PortfolioResult :=
  let ts := presorted trades
  let fin := runDays ts initPortState (simDays ts)
  let used := fin.used_trades ++ fin.open_trades
  if used.isEmpty then { equity_curve := [], used_trades := used }
  else { equity_curve := equityCurve (daily_returns_from_trades used), used_trades := used }

/-! ## Signal detector (`signals/lag_detector.py`) -/

/-- Minimum number of leaders per signal. -/
def MIN_LEADERS_PER_SIGNAL : ℕ := 2

/-- Minimum number of laggers per signal. -/
def MIN_LAGGERS_PER_SIGNAL : ℕ := 1

/-- Noise floor on the cross-sectional dispersion of window returns. -/
def MIN_WINDOW_STD : ℚ := mkRat 1 100

/-- The four signal-detection parameters of one grid entry. -/
structure SigParams where
  lookback : ℕ
  group_thresh : ℚ
  participation : ℚ
  lagger_max_move : ℚ
deriving DecidableEq, Repr

/-- A detected lag signal (one per qualifying lagger per window). -/
structure Signal where
  group : String
  ticker : String
  direction : ℤ
  lookback : ℕ
  group_thresh : ℚ
  participation : ℚ
  lagger_max_move : ℚ
  signal_date : ℕ
  start_date : ℕ
  leaders : List String
  lagger_ret : ℚ
  window_rets : List (String × ℚ)
deriving DecidableEq, Repr

/-- Sample variance with ddof = 1, as `pd.Series.std` squares to. -/
def sampleVar (vals : List ℚ) : ℚ :=
  let n : ℚ := (vals.length : ℚ)
  let m := vals.sum / n
  (vals.map (fun x => (x - m) ^ 2)).sum / (n - 1)

/-- `window_rets.std() < MIN_WINDOW_STD`: both sides are non-negative, so the
comparison is embedded square-free as `variance < MIN_WINDOW_STD²`; with fewer
than two observations the std is NaN and the comparison is false. -/
def stdBelowFloor (vals : List ℚ) : Bool :=
  decide (2 ≤ vals.length) && decide (sampleVar vals < MIN_WINDOW_STD ^ 2)

/-- Per-instrument window returns `iloc[-1] / iloc[0] - 1` over the window
`[start_idx, end_idx]` of a group's column table. -/
def windowRets (series_group : List (String × List ℚ)) (start_idx end_idx : ℕ) :
    List (String × ℚ) :=
  series_group.map (fun c => (c.1, c.2.getD end_idx 0 / c.2.getD start_idx 0 - 1))

/-- `window_rets[window_rets >= group_thresh]`. -/
def moversUp (p : SigParams) (wr : List (String × ℚ)) : List (String × ℚ) :=
  wr.filter (fun x => decide (p.group_thresh ≤ x.2))

/-- `window_rets[window_rets <= -group_thresh]`. -/
def moversDown (p : SigParams) (wr : List (String × ℚ)) : List (String × ℚ) :=
  wr.filter (fun x => decide (x.2 ≤ -p.group_thresh))

/-- Participation fraction of the up-movers. -/
def fracUp (p : SigParams) (wr : List (String × ℚ)) : ℚ :=
  ((moversUp p wr).length : ℚ) / (wr.length : ℚ)

/-- Participation fraction of the down-movers. -/
def fracDown (p : SigParams) (wr : List (String × ℚ)) : ℚ :=
  ((moversDown p wr).length : ℚ) / (wr.length : ℚ)

/-- The direction decision of `_detect_lag_signals_for_group` (with
`direction="both"`, as every caller passes): up when the up-fraction reaches
participation and is at least the down-fraction, else down when the
down-fraction reaches participation and strictly exceeds the up-fraction,
else no signal for this window. Returns the winning side's leader tickers. -/
def chooseDirection (p : SigParams) (wr : List (String × ℚ)) : Option (ℤ × List String) :=
  if p.participation ≤ fracUp p wr ∧ fracDown p wr ≤ fracUp p wr then
    some (1, (moversUp p wr).map Prod.fst)
  else if p.participation ≤ fracDown p wr ∧ fracUp p wr < fracDown p wr then
    some (-1, (moversDown p wr).map Prod.fst)
  else none

/-- Laggers: instruments whose absolute window return is at most
`lagger_max_move`, excluding any leader. -/
def laggersOf (p : SigParams) (wr : List (String × ℚ)) (leaders : List String) :
    List (String × ℚ) :=
  (wr.filter (fun x => decide (|x.2| ≤ p.lagger_max_move))).filter
    (fun x => ! leaders.contains x.1)

/-- The signals one window emits: nothing when the window is flat, has no
winning direction, fewer than 2 leaders or no lagger; otherwise one signal
per lagger sharing the window's direction, leaders and dates. -/
def detectWindow (group_name : String) (p : SigParams) (wr : List (String × ℚ))
    (end_date start_date : ℕ) : List Signal :=
  if stdBelowFloor (wr.map Prod.snd) then []
  else
    match chooseDirection p wr with
    | none => []
    | some (dir_sign, leaders) =>
      if leaders.length < MIN_LEADERS_PER_SIGNAL then []
      else
        let laggers := laggersOf p wr leaders
        if laggers.length < MIN_LAGGERS_PER_SIGNAL then []
        else
          laggers.map (fun lg =>
            { group := group_name, ticker := lg.1, direction := dir_sign,
              lookback := p.lookback, group_thresh := p.group_thresh,
              participation := p.participation, lagger_max_move := p.lagger_max_move,
              signal_date := end_date, start_date := start_date,
              leaders := leaders, lagger_ret := lg.2, window_rets := wr })

/-- The number of rows (dates) of a group's column table. -/
def nRowsOf (series_group : List (String × List ℚ)) : ℕ :=
  ((series_group.head?).map (fun c => c.2.length)).getD 0

/-- `_detect_lag_signals_for_group`: slide the window end index from
`lookback` to the last row and collect each window's signals. -/
def detect_lag_signals_for_group (series_group : List (String × List ℚ))
    (group_name : String) (p : SigParams) : List Signal :=
  (List.range' p.lookback (nRowsOf series_group - p.lookback)).flatMap
    (fun end_idx =>
      detectWindow group_name p (windowRets series_group (end_idx - p.lookback) end_idx)
        end_idx (end_idx - p.lookback))

/-! ## Trade generator (`backtest/trade_generator.py`, `backtest_signals`) -/

/-- The fixed entry-lag grid. -/
def entryLags : List ℕ := [0, 1, 2, 3]

/-- The fixed holding-period grid. -/
def holdsList : List ℕ := [3, 5, 7, 10]

/-- One entry of the trade-parameter grid. -/
structure TradeParams where
  lookback : ℕ
  group_thresh : ℚ
  participation : ℚ
  lagger_max_move : ℚ
  entry_lag : ℕ
  hold_days : ℕ
deriving DecidableEq, Repr

/-- The distinct 4-tuples of signal parameters present in the signal set
(the Python builds a `set`; only membership matters downstream). -/
def uniqueParamSets (signals : List Signal) : List (ℕ × ℚ × ℚ × ℚ) :=
  (signals.map (fun s => (s.lookback, s.group_thresh, s.participation, s.lagger_max_move))).dedup

/-- The trade-parameter grid: each distinct signal 4-tuple crossed with the
fixed entry-lag and hold grids. -/
def adaptiveRuleGrid (signals : List Signal) : List TradeParams :=
  (uniqueParamSets signals).flatMap (fun q =>
    entryLags.flatMap (fun e =>
      holdsList.map (fun h =>
        { lookback := q.1, group_thresh := q.2.1, participation := q.2.2.1,
          lagger_max_move := q.2.2.2, entry_lag := e, hold_days := h })))

/-- Exact equality of the four shared fields between a grid entry and a
signal. -/
def paramsMatch (p : TradeParams) (sig : Signal) : Bool :=
  decide (p.lookback = sig.lookback) && decide (p.group_thresh = sig.group_thresh) &&
    decide (p.participation = sig.participation) &&
    decide (p.lagger_max_move = sig.lagger_max_move)

/-- The open-trade row emitted when the holding window extends past the end
of the price history: absent exit date, absent return, `is_open = True`. -/
def openTradeOf (sig : Signal) (p : TradeParams) : Trade :=
  { group := sig.group, ticker := sig.ticker, direction := sig.direction,
    signal_date := sig.signal_date, entry_date := sig.signal_date + p.entry_lag,
    exit_date := none, entry_lag := p.entry_lag,
    hold_days := p.hold_days, lookback := sig.lookback,
    group_thresh := sig.group_thresh, participation := sig.participation,
    lagger_max_move := sig.lagger_max_move, ret := none,
    leaders := String.intercalate "," sig.leaders, is_open := true,
    rule_id := none, rule_quality_score := none }

/-- The trade one (signal, grid-entry) combination yields over the signal
ticker's price series: `none` when the entry index is out of range (the
combination is skipped); an open trade (absent exit date and return) when
only the exit index is out of range; a closed trade otherwise. -/
def tradeFor (ticker_series : List ℚ) (sig : Signal) (p : TradeParams) : Option Trade :=
  let entry_idx := sig.signal_date + p.entry_lag
  if ticker_series.length ≤ entry_idx then none
  else
    let exit_idx := entry_idx + p.hold_days
    if exit_idx < ticker_series.length then
      some { group := sig.group, ticker := sig.ticker, direction := sig.direction,
             signal_date := sig.signal_date, entry_date := entry_idx,
             exit_date := some exit_idx, entry_lag := p.entry_lag,
             hold_days := p.hold_days, lookback := sig.lookback,
             group_thresh := sig.group_thresh, participation := sig.participation,
             lagger_max_move := sig.lagger_max_move,
             ret := some ((ticker_series.getD exit_idx 0 / ticker_series.getD entry_idx 0 - 1)
               * (sig.direction : ℚ)),
             leaders := String.intercalate "," sig.leaders, is_open := false,
             rule_id := none, rule_quality_score := none }
    else
      some (openTradeOf sig p)

/-- The trade rows one signal contributes: nothing when its ticker has no
column or its date is not in the index (`KeyError` → `continue`), else one
row per matching grid entry whose entry index is in range. -/
def tradesForSignal (series : List (String × List ℚ)) (grid : List TradeParams)
    (sig : Signal) : List Trade :=
  match series.find? (fun c => decide (c.1 = sig.ticker)) with
  | none => []
  | some c =>
    if sig.signal_date < c.2.length then
      (grid.filter (fun p => paramsMatch p sig)).filterMap (tradeFor c.2 sig)
    else []

/-- `backtest_signals` (first pass, without the scored-rules join, which only
attaches metadata and is not at stake in the claims). -/
def backtest_signals (series : List (String × List ℚ)) (signals : List Signal) :
    List Trade :=
  signals.flatMap (tradesForSignal series (adaptiveRuleGrid signals))

/-! ## Sector investability filter (`reporting/sector_filters.py`) -/

/-- One day/sector cell of `_compute_sector_daily_returns`: zero unless some
trade of the sector is open that day and at least one of them exits exactly
that day, in which case each exiting trade books `ret / n_open_in_sector`. -/
def sector_daily_ret (closed : List Trade) (sector : String) (day : ℕ) : ℚ :=
  let day_trades := closed.filter (fun t => isOpenOn t day)
  if day_trades.isEmpty then 0
  else
    let sec_trades := day_trades.filter (fun t => decide (t.group = sector))
    if sec_trades.isEmpty then 0
    else
      let weight : ℚ := 1 / (sec_trades.length : ℚ)
      let exits := sec_trades.filter (fun t => decide (t.exit_date = some day))
      if exits.isEmpty then 0
      else (exits.map (fun t => t.ret.getD 0 * weight)).sum

/-- The distinct sectors of a trade table (`closed["group"].unique()`). -/
def sectorsOf (trades : List Trade) : List String :=
  (trades.map Trade.group).dedup

/-- `_compute_sector_daily_returns`: the per-sector daily-return table over
the business days from the earliest entry to the latest exit of the closed
trades. -/
def compute_sector_daily_returns (trades : List Trade) : List (ℕ × List (String × ℚ)) :=
  let closed := closedOf trades
  if closed.isEmpty then []
  else
    let start := listMinD (closed.map Trade.entry_date)
    let stop := listMaxD (closed.filterMap Trade.exit_date)
    (dateRange start stop).map (fun day =>
      (day, (sectorsOf closed).map (fun sec => (sec, sector_daily_ret closed sec day))))

/-- The sector metrics the strict gate reads (volatility feeds sharpe and is
not separately gated). -/
structure SectorRow where
  mean : ℚ
  win_rate : ℚ
  sharpe : ℚ
  sortino : ℚ
  stability : ℚ
  max_dd : ℚ
deriving DecidableEq, Repr

/-- The six externally supplied strict-mode floors. -/
structure StrictParams where
  min_mean : ℚ
  min_win_rate : ℚ
  min_sharpe : ℚ
  min_sortino : ℚ
  min_stability : ℚ
  min_max_dd : ℚ
deriving DecidableEq, Repr

/-- A rejection reason line, carrying the offending metric value (the Python
formats it into an f-string; the text template adds no information). -/
inductive RejectReason where
  | mean (v : ℚ)
  | win_rate (v : ℚ)
  | sharpe (v : ℚ)
  | sortino (v : ℚ)
  | stability (v : ℚ)
  | max_dd (v : ℚ)
deriving DecidableEq, Repr

/-- `_evaluate_sector_weighted_strict`: starts with `ok = True`, and each of
the six criteria that fails flips `ok` and appends one reason line. -/
def evaluate_sector_weighted_strict (p : StrictParams) (row : SectorRow) :
    Bool × List RejectReason :=
  let st : Bool × List RejectReason := (true, [])
  let st := if row.mean < p.min_mean then (false, st.2 ++ [RejectReason.mean row.mean]) else st
  let st := if row.win_rate < p.min_win_rate then
    (false, st.2 ++ [RejectReason.win_rate row.win_rate]) else st
  let st := if row.sharpe < p.min_sharpe then
    (false, st.2 ++ [RejectReason.sharpe row.sharpe]) else st
  let st := if row.sortino < p.min_sortino then
    (false, st.2 ++ [RejectReason.sortino row.sortino]) else st
  let st := if row.stability < p.min_stability then
    (false, st.2 ++ [RejectReason.stability row.stability]) else st
  let st := if row.max_dd < p.min_max_dd then
    (false, st.2 ++ [RejectReason.max_dd row.max_dd]) else st
  st

/-! ## Concrete inputs for witnesses and counterexamples -/

/-- A closed trade of the `wKey` rule with a positive return. -/
def trA : Trade :=
  { group := "TECH", ticker := "AAA", direction := 1, signal_date := 0,
    entry_date := 1, exit_date := some 6, entry_lag := 1, hold_days := 5,
    lookback := 10, group_thresh := mkRat 3 100, participation := mkRat 3 5,
    lagger_max_move := mkRat 1 100, ret := some (mkRat 1 20), leaders := "L1,L2",
    is_open := false, rule_id := none, rule_quality_score := none }

/-- An open trade of the same rule: absent exit date and return. -/
def trB : Trade :=
  { trA with
    ticker := "BBB", entry_date := 2, exit_date := none, ret := none,
    is_open := true }

/-- An open trade entering on day 5, for the portfolio runs. -/
def trOpen : Trade :=
  { trA with
    ticker := "OPN", signal_date := 4, entry_date := 5, exit_date := none,
    ret := none, is_open := true }

/-- A closed trade entering day 1 and exiting day 3 with `ret = 0.04`. -/
def u1 : Trade :=
  { trA with
    group := "EN", ticker := "U1", entry_date := 1, exit_date := some 3,
    ret := some (mkRat 1 25) }

/-- A closed trade of the same sector open across day 3 but exiting day 5. -/
def u2 : Trade :=
  { trA with
    group := "EN", ticker := "U2", entry_date := 1, exit_date := some 5,
    ret := some (mkRat 1 50) }

/-- The fan-out scenario's group table: three instruments over two dates with
window returns 0.06, 0.05 and −0.004 for a one-day lookback. -/
def scenSeries : List (String × List ℚ) :=
  [("I1", [100, 106]), ("I2", [100, 105]), ("I3", [100, mkRat 498 5])]

/-- The fan-out scenario's parameters. -/
def scenParams : SigParams :=
  { lookback := 1, group_thresh := mkRat 3 100, participation := mkRat 3 5,
    lagger_max_move := mkRat 1 100 }

/-- A one-ticker price series of six dates for the open-trade scenario. -/
def genSeries : List (String × List ℚ) :=
  [("X", [100, 101, 102, 103, 104, 105])]

/-- A signal on the last available date of `genSeries`. -/
def genSignal : Signal :=
  { group := "TECH", ticker := "X", direction := 1, lookback := 10,
    group_thresh := mkRat 3 100, participation := mkRat 3 5,
    lagger_max_move := mkRat 1 100, signal_date := 5, start_date := 0,
    leaders := ["L1", "L2"], lagger_ret := 0, window_rets := [] }

/-- The one signal the fan-out scenario is expected to emit: direction up,
leaders the first two instruments, the third instrument as the lagger. -/
def scnSignal : Signal :=
  { group := "SCN", ticker := "I3", direction := 1, lookback := 1,
    group_thresh := mkRat 3 100, participation := mkRat 3 5,
    lagger_max_move := mkRat 1 100, signal_date := 1, start_date := 0,
    leaders := ["I1", "I2"], lagger_ret := mkRat (-1) 250,
    window_rets := [("I1", mkRat 3 50), ("I2", mkRat 1 20), ("I3", mkRat (-1) 250)] }

/-! ## Theorems -/

/-! ### Helper lemmas on the list machinery -/

theorem insertBy_mem {α : Type} (le : α → α → Bool) (x : α) (l : List α) (a : α) :
    a ∈ insertBy le x l ↔ a = x ∨ a ∈ l := by
  induction l with
  | nil => simp [insertBy]
  | cons y ys ih =>
    simp only [insertBy]
    split
    · simp
    · simp only [List.mem_cons, ih]
      tauto

theorem sortBy_mem {α : Type} (le : α → α → Bool) (l : List α) (a : α) :
    a ∈ sortBy le l ↔ a ∈ l := by
  induction l with
  | nil => simp [sortBy]
  | cons x xs ih => simp [sortBy, insertBy_mem, ih]

theorem sortTodays_mem (l : List Trade) (a : Trade) :
    a ∈ sortTodays l ↔ a ∈ l := by
  unfold sortTodays
  split
  · rfl
  · exact sortBy_mem scoreDescLe l a

theorem admitFold_cons (acc : List Trade) (t : Trade) (ts : List Trade) :
    admitFold acc (t :: ts) =
      admitFold (if acc.length < MAX_CONCURRENT_TRADES then acc ++ [t] else acc) ts := rfl

theorem admitFold_length_le (todays : List Trade) :
    ∀ acc : List Trade, acc.length ≤ MAX_CONCURRENT_TRADES →
      (admitFold acc todays).length ≤ MAX_CONCURRENT_TRADES := by
  induction todays with
  | nil => intro acc h; simpa [admitFold] using h
  | cons t ts ih =>
    intro acc h
    rw [admitFold_cons]
    split
    · next hlt => exact ih _ (by simpa using hlt)
    · exact ih _ h

theorem admitFold_mem (todays : List Trade) :
    ∀ (acc : List Trade) (a : Trade), a ∈ admitFold acc todays → a ∈ acc ∨ a ∈ todays := by
  induction todays with
  | nil => intro acc a h; exact Or.inl (by simpa [admitFold] using h)
  | cons t ts ih =>
    intro acc a h
    rw [admitFold_cons] at h
    rcases ih _ a h with hacc | hts
    · by_cases hlt : acc.length < MAX_CONCURRENT_TRADES
      · rw [if_pos hlt] at hacc
        rcases List.mem_append.mp hacc with h' | h'
        · exact Or.inl h'
        · simp only [List.mem_singleton] at h'
          exact Or.inr (h' ▸ List.mem_cons_self t ts)
      · exact Or.inl (by rwa [if_neg hlt] at hacc)
    · exact Or.inr (List.mem_cons_of_mem t hts)

theorem admitFold_mem_left (todays : List Trade) :
    ∀ (acc : List Trade) (a : Trade), a ∈ acc → a ∈ admitFold acc todays := by
  induction todays with
  | nil => intro acc a h; simpa [admitFold] using h
  | cons t ts ih =>
    intro acc a h
    rw [admitFold_cons]
    apply ih
    split
    · exact List.mem_append_left _ h
    · exact h

theorem runDays_nil (trades : List Trade) (s : PortState) :
    runDays trades s [] = s := rfl

theorem runDays_cons (trades : List Trade) (s : PortState) (d : ℕ) (ds : List ℕ) :
    runDays trades s (d :: ds) = runDays trades (stepDay trades d s) ds := rfl

theorem stepDay_open_length_le (trades : List Trade) (day : ℕ) (s : PortState)
    (h : s.open_trades.length ≤ MAX_CONCURRENT_TRADES) :
    (stepDay trades day s).open_trades.length ≤ MAX_CONCURRENT_TRADES := by
  apply admitFold_length_le
  simp only [releaseStep]
  exact le_trans (List.length_filter_le _ _) h

theorem runDays_open_length_le (trades : List Trade) (days : List ℕ) :
    ∀ s : PortState, s.open_trades.length ≤ MAX_CONCURRENT_TRADES →
      (runDays trades s days).open_trades.length ≤ MAX_CONCURRENT_TRADES := by
  induction days with
  | nil => intro s h; simpa [runDays_nil] using h
  | cons d ds ih =>
    intro s h
    rw [runDays_cons]
    exact ih _ (stepDay_open_length_le trades d s h)

/-! ### C2 -/

/-- C2. Admission cap invariant: starting from the empty working set, after
any sequence of simulated days (hence after every day's admission step) the
working set holds at most `MAX_CONCURRENT_TRADES = 3` trades; and a day's
step can only put a trade into the working set when that day is the trade's
entry date, so a trade not admitted on its entry day is never opened on any
later day. -/
theorem c2_admission_cap :
    (∀ (trades : List Trade) (days : List ℕ),
        (runDays trades initPortState days).open_trades.length ≤ MAX_CONCURRENT_TRADES) ∧
    (∀ (trades : List Trade) (s : PortState) (day : ℕ) (tr : Trade),
        tr ∈ (stepDay trades day s).open_trades →
          tr ∈ s.open_trades ∨ tr.entry_date = day) := by
  constructor
  · intro trades days
    exact runDays_open_length_le trades days initPortState (by simp [initPortState])
  · intro trades s day tr htr
    simp only [stepDay] at htr
    rcases admitFold_mem _ _ _ htr with hrel | htoday
    · simp only [releaseStep, List.mem_filter] at hrel
      exact Or.inl hrel.1
    · rw [sortTodays_mem] at htoday
      rcases List.mem_filter.mp htoday with ⟨_, hpred⟩
      exact Or.inr (of_decide_eq_true hpred)

/-- Witness for C2: a one-trade table run over three days stays under the
cap, and a concrete admitted trade entered exactly on its entry date. -/
theorem c2_admission_cap_witness :
    (runDays [trA] initPortState [1, 2, 3]).open_trades.length ≤ MAX_CONCURRENT_TRADES ∧
    (trA ∈ initPortState.open_trades ∨ trA.entry_date = 1) :=
  ⟨c2_admission_cap.1 [trA] [1, 2, 3],
   c2_admission_cap.2 [trA] initPortState 1 trA (by decide)⟩

/-! ### C10 helper lemmas -/

theorem stepDay_keeps_open_unexitable (trades : List Trade) (day : ℕ) (s : PortState)
    (tr : Trade) (hnone : tr.exit_date = none) (h : tr ∈ s.open_trades) :
    tr ∈ (stepDay trades day s).open_trades := by
  simp only [stepDay]
  apply admitFold_mem_left
  simp only [releaseStep, List.mem_filter]
  exact ⟨h, by simp [exitBefore, hnone]⟩

theorem stepDay_keeps_used_free (trades : List Trade) (day : ℕ) (s : PortState)
    (tr : Trade) (hnone : tr.exit_date = none) (h : tr ∉ s.used_trades) :
    tr ∉ (stepDay trades day s).used_trades := by
  simp only [stepDay, releaseStep]
  intro hmem
  rcases List.mem_append.mp hmem with h' | h'
  · exact h h'
  · rcases List.mem_filter.mp h' with ⟨_, hpred⟩
    simp [exitBefore, hnone] at hpred

theorem runDays_keeps_open_unexitable (trades : List Trade) (days : List ℕ) :
    ∀ (s : PortState) (tr : Trade), tr.exit_date = none → tr ∈ s.open_trades →
      tr ∈ (runDays trades s days).open_trades := by
  induction days with
  | nil => intro s tr _ h; simpa [runDays_nil] using h
  | cons d ds ih =>
    intro s tr hnone h
    rw [runDays_cons]
    exact ih _ tr hnone (stepDay_keeps_open_unexitable trades d s tr hnone h)

theorem runDays_keeps_used_free (trades : List Trade) (days : List ℕ) :
    ∀ (s : PortState) (tr : Trade), tr.exit_date = none → tr ∉ s.used_trades →
      tr ∉ (runDays trades s days).used_trades := by
  induction days with
  | nil => intro s tr _ h; simpa [runDays_nil] using h
  | cons d ds ih =>
    intro s tr hnone h
    rw [runDays_cons]
    exact ih _ tr hnone (stepDay_keeps_used_free trades d s tr hnone h)

theorem run_static_portfolio_used (trades : List Trade) :
    (run_static_portfolio trades).used_trades =
      (runDays (presorted trades) initPortState (simDays (presorted trades))).used_trades ++
        (runDays (presorted trades) initPortState (simDays (presorted trades))).open_trades := by
  simp only [run_static_portfolio]
  split <;> rfl

/-! ### C10 -/

/-- C10. An admitted trade with an absent exit date is never released by the
daily release step (the comparison `exit_date < day` is false for a missing
exit date): once in the working set it stays in the working set through every
remaining simulated day, the day loop never moves it to the ledger, and it
reaches `used_trades` only through the terminal flush after the date loop. -/
theorem c10_open_trade_pinned :
    (∀ (trades : List Trade) (days : List ℕ) (s : PortState) (tr : Trade),
        tr.exit_date = none → tr ∈ s.open_trades →
          tr ∈ (runDays trades s days).open_trades) ∧
    (∀ (trades : List Trade) (days : List ℕ) (s : PortState) (tr : Trade),
        tr.exit_date = none → tr ∉ s.used_trades →
          tr ∉ (runDays trades s days).used_trades) ∧
    (∀ (trades : List Trade) (tr : Trade), tr.exit_date = none →
        tr ∈ (runDays (presorted trades) initPortState (simDays (presorted trades))).open_trades →
          tr ∈ (run_static_portfolio trades).used_trades) := by
  refine ⟨?_, ?_, ?_⟩
  · intro trades days s tr hnone h
    exact runDays_keeps_open_unexitable trades days s tr hnone h
  · intro trades days s tr hnone h
    exact runDays_keeps_used_free trades days s tr hnone h
  · intro trades tr hnone h
    rw [run_static_portfolio_used]
    exact List.mem_append_right _ h

/-! ### Equity-curve helper lemmas -/

theorem foldl_min_le (l : List ℕ) : ∀ a : ℕ, l.foldl min a ≤ a ∧ ∀ x ∈ l, l.foldl min a ≤ x := by
  induction l with
  | nil => intro a; simp
  | cons y ys ih =>
    intro a
    refine ⟨le_trans (ih (min a y)).1 (min_le_left a y), ?_⟩
    intro x hx
    rcases List.mem_cons.mp hx with rfl | hx
    · exact le_trans (ih (min a x)).1 (min_le_right a x)
    · exact (ih (min a y)).2 x hx

theorem le_foldl_max (l : List ℕ) : ∀ a : ℕ, a ≤ l.foldl max a ∧ ∀ x ∈ l, x ≤ l.foldl max a := by
  induction l with
  | nil => intro a; simp
  | cons y ys ih =>
    intro a
    refine ⟨le_trans (le_max_left a y) (ih (max a y)).1, ?_⟩
    intro x hx
    rcases List.mem_cons.mp hx with rfl | hx
    · exact le_trans (le_max_right a x) (ih (max a x)).1
    · exact (ih (max a y)).2 x hx

theorem listMinD_le (l : List ℕ) (x : ℕ) (hx : x ∈ l) : listMinD l ≤ x := by
  cases l with
  | nil => cases hx
  | cons y ys =>
    rcases List.mem_cons.mp hx with rfl | hx
    · exact (foldl_min_le ys x).1
    · exact (foldl_min_le ys y).2 x hx

theorem le_listMaxD (l : List ℕ) (x : ℕ) (hx : x ∈ l) : x ≤ listMaxD l := by
  cases l with
  | nil => cases hx
  | cons y ys =>
    rcases List.mem_cons.mp hx with rfl | hx
    · exact (le_foldl_max ys x).1
    · exact (le_foldl_max ys y).2 x hx

theorem cumprodAux_length : ∀ (l : List ℚ) (acc : ℚ), (cumprodAux acc l).length = l.length := by
  intro l
  induction l with
  | nil => intro acc; rfl
  | cons x xs ih => intro acc; simp [cumprodAux, ih]

theorem cumprod_length (l : List ℚ) : (cumprod l).length = l.length :=
  cumprodAux_length l 1

theorem cumprodAux_getElem? :
    ∀ (l : List ℚ) (acc : ℚ) (i : ℕ), i < l.length →
      (cumprodAux acc l)[i]? = some (acc * (l.take (i + 1)).prod) := by
  intro l
  induction l with
  | nil => intro acc i h; simp at h
  | cons x xs ih =>
    intro acc i h
    cases i with
    | zero => simp [cumprodAux]
    | succ j =>
      have hj : j < xs.length := by simpa using h
      simp only [cumprodAux, List.getElem?_cons_succ, List.take_succ_cons, List.prod_cons]
      rw [ih (acc * x) j hj, mul_assoc]

theorem equityCurve_map_fst (daily : List (ℕ × ℚ)) :
    (equityCurve daily).map Prod.fst = daily.map Prod.fst := by
  apply List.map_fst_zip
  simp [cumprod_length]

theorem equityCurve_map_snd (daily : List (ℕ × ℚ)) :
    (equityCurve daily).map Prod.snd = cumprod (daily.map (fun p => 1 + p.2)) := by
  apply List.map_snd_zip
  simp [cumprod_length]

theorem run_static_portfolio_equity (trades : List Trade) :
    (run_static_portfolio trades).equity_curve =
      equityCurve (daily_returns_from_trades ((run_static_portfolio trades).used_trades)) := by
  simp only [run_static_portfolio]
  split
  · next hemp =>
    rw [List.isEmpty_iff] at hemp
    simp [hemp, daily_returns_from_trades, closedOf, equityCurve, cumprod, cumprodAux]
  · rfl

/-- The closed-trade list, the range anchors and the shape of the daily
series, for a trade list with at least one closed trade. -/
theorem daily_returns_shape (ts : List Trade) (hne : closedOf ts ≠ []) :
    daily_returns_from_trades ts =
      (dateRange (listMinD ((closedOf ts).map Trade.entry_date))
          (listMaxD ((closedOf ts).filterMap Trade.exit_date))).map
        (fun day => (day, dayRet (closedOf ts) day)) := by
  unfold daily_returns_from_trades
  rw [if_neg (by simpa [List.isEmpty_iff] using hne)]

/-- No closed trade exits on the very first simulated day when every closed
trade exits strictly after it enters. -/
theorem no_exit_on_start (ts : List Trade)
    (hs : ∀ t ∈ closedOf ts, ∀ e, t.exit_date = some e → t.entry_date < e) :
    (closedOf ts).filter
        (fun t => decide (t.exit_date = some (listMinD ((closedOf ts).map Trade.entry_date)))) =
      [] := by
  rw [List.filter_eq_nil_iff]
  intro t ht hdec
  have he : t.exit_date = some (listMinD ((closedOf ts).map Trade.entry_date)) :=
    of_decide_eq_true hdec
  have hlt := hs t ht _ he
  have hmin : listMinD ((closedOf ts).map Trade.entry_date) ≤ t.entry_date :=
    listMinD_le _ _ (List.mem_map_of_mem Trade.entry_date ht)
  omega

theorem dayRet_of_no_exit (closed : List Trade) (day : ℕ)
    (h : closed.filter (fun t => decide (t.exit_date = some day)) = []) :
    dayRet closed day = 0 := by
  simp only [dayRet]
  split
  · rfl
  · rw [if_pos (by simp [h])]

/-- Head and index sortedness of the equity curve built from a trade list with
at least one closed trade, all of whose closed trades exit strictly after
entry. -/
theorem equity_head_one (ts : List Trade)
    (hc : ∃ t ∈ ts, t.exit_date.isSome)
    (hs : ∀ t ∈ ts, ∀ e, t.exit_date = some e → t.entry_date < e) :
    ((equityCurve (daily_returns_from_trades ts)).map Prod.fst).Sorted (· < ·) ∧
    ((equityCurve (daily_returns_from_trades ts)).head?).map Prod.snd = some 1 := by
  obtain ⟨t₀, ht₀, hsome⟩ := hc
  have ht₀c : t₀ ∈ closedOf ts := List.mem_filter.mpr ⟨ht₀, hsome⟩
  have hne : closedOf ts ≠ [] := fun h => by simp [h] at ht₀c
  have hs' : ∀ t ∈ closedOf ts, ∀ e, t.exit_date = some e → t.entry_date < e := by
    intro t ht e he
    exact hs t (List.mem_filter.mp ht).1 e he
  have hshape := daily_returns_shape ts hne
  obtain ⟨e₀, he₀⟩ := Option.isSome_iff_exists.mp hsome
  have h1 : listMinD ((closedOf ts).map Trade.entry_date) ≤ t₀.entry_date :=
    listMinD_le _ _ (List.mem_map_of_mem _ ht₀c)
  have h2 : t₀.entry_date < e₀ := hs' t₀ ht₀c e₀ he₀
  have h3 : e₀ ≤ listMaxD ((closedOf ts).filterMap Trade.exit_date) :=
    le_listMaxD _ _ (List.mem_filterMap.mpr ⟨t₀, ht₀c, he₀⟩)
  constructor
  · rw [hshape, equityCurve_map_fst]
    have hm : ((dateRange (listMinD ((closedOf ts).map Trade.entry_date))
          (listMaxD ((closedOf ts).filterMap Trade.exit_date))).map
            (fun day => (day, dayRet (closedOf ts) day))).map Prod.fst =
        dateRange (listMinD ((closedOf ts).map Trade.entry_date))
          (listMaxD ((closedOf ts).filterMap Trade.exit_date)) := by
      simp [List.map_map, Function.comp_def]
    rw [hm]
    exact List.pairwise_lt_range' _ _
  · have hn : listMaxD ((closedOf ts).filterMap Trade.exit_date) + 1 -
        listMinD ((closedOf ts).map Trade.entry_date) =
        (listMaxD ((closedOf ts).filterMap Trade.exit_date) -
          listMinD ((closedOf ts).map Trade.entry_date)) + 1 := by omega
    have hrange : dateRange (listMinD ((closedOf ts).map Trade.entry_date))
        (listMaxD ((closedOf ts).filterMap Trade.exit_date)) =
        listMinD ((closedOf ts).map Trade.entry_date) ::
          List.range' (listMinD ((closedOf ts).map Trade.entry_date) + 1)
            (listMaxD ((closedOf ts).filterMap Trade.exit_date) -
              listMinD ((closedOf ts).map Trade.entry_date)) := by
      unfold dateRange
      rw [hn, List.range'_succ]
    have hd0 : dayRet (closedOf ts) (listMinD ((closedOf ts).map Trade.entry_date)) = 0 :=
      dayRet_of_no_exit _ _ (no_exit_on_start ts hs')
    rw [hshape, hrange]
    simp [equityCurve, cumprod, cumprodAux, hd0]

/-- Witness for C10: a concrete open trade admitted on day 5 survives two
further days in the working set, never appears in the loop's ledger, and ends
in the returned `used_trades`. -/
theorem c10_open_trade_pinned_witness :
    trOpen ∈ (runDays [trOpen] { open_trades := [trOpen], used_trades := [] } [6, 7]).open_trades ∧
    trOpen ∉ (runDays [trOpen] { open_trades := [trOpen], used_trades := [] } [6, 7]).used_trades ∧
    trOpen ∈ (run_static_portfolio [trOpen]).used_trades :=
  ⟨c10_open_trade_pinned.1 [trOpen] [6, 7] _ trOpen (by decide) (by decide),
   c10_open_trade_pinned.2.1 [trOpen] [6, 7] _ trOpen (by decide) (by decide),
   c10_open_trade_pinned.2.2 [trOpen] trOpen (by decide) (by decide)⟩

/-- Two key-sorted association lists that are permutations of each other and
have no duplicate keys are equal. -/
theorem sorted_perm_nodupKeys_eq :
    ∀ (l₁ l₂ : List (String × JVal)), l₁.Perm l₂ → l₁.Sorted keyLe → l₂.Sorted keyLe →
      (l₁.map Prod.fst).Nodup → l₁ = l₂ := by
  intro l₁
  induction l₁ with
  | nil =>
    intro l₂ hp _ _ _
    exact hp.nil_eq
  | cons a t ih =>
    intro l₂ hp hs₁ hs₂ hnd
    cases l₂ with
    | nil => exact absurd hp.symm (by simp)
    | cons b t₂ =>
      have hamem : a ∈ b :: t₂ := hp.mem_iff.mp (List.mem_cons_self a t)
      have hbmem : b ∈ a :: t := hp.mem_iff.mpr (List.mem_cons_self b t₂)
      have hba : keyLe b a := by
        rcases List.mem_cons.mp hamem with h | h
        · exact le_of_eq (congrArg Prod.fst h.symm)
        · exact (List.sorted_cons.mp hs₂).1 a h
      have hab : keyLe a b := by
        rcases List.mem_cons.mp hbmem with h | h
        · exact le_of_eq (congrArg Prod.fst h.symm)
        · exact (List.sorted_cons.mp hs₁).1 b h
      have hkey : a.1 = b.1 := le_antisymm hab hba
      have hndl₂ : ((b :: t₂).map Prod.fst).Nodup := (hp.map Prod.fst).nodup hnd
      have hb : a = b := by
        rcases List.mem_cons.mp hamem with h | h
        · exact h
        · exfalso
          have : b.1 ∈ t₂.map Prod.fst := hkey ▸ List.mem_map_of_mem Prod.fst h
          exact (List.nodup_cons.mp hndl₂).1 this
      subst hb
      have ht : t.Perm t₂ := hp.cons_inv
      have := ih t₂ ht (List.sorted_cons.mp hs₁).2 (List.sorted_cons.mp hs₂).2
        (List.nodup_cons.mp hnd).2
      rw [this]

/-- C1. RuleId generation is deterministic: the RuleId is a pure function of
the 7 RuleKey field values — for any two parameter dicts (association lists in
any insertion/iteration order) built from RuleKeys with identical field values,
`generate_rule_id` returns the identical string, because `sort_keys=True`
canonicalizes the entry order before hashing. -/
theorem c1_rule_id_deterministic (k₁ k₂ : RuleKey) (l₁ l₂ : List (String × JVal))
    (h₁ : l₁.Perm (ruleParams k₁)) (h₂ : l₂.Perm (ruleParams k₂))
    (hlb : k₁.lookback = k₂.lookback) (hgt : k₁.group_thresh = k₂.group_thresh)
    (hpa : k₁.participation = k₂.participation)
    (hlm : k₁.lagger_max_move = k₂.lagger_max_move)
    (hel : k₁.entry_lag = k₂.entry_lag) (hhd : k₁.hold_days = k₂.hold_days)
    (hgr : k₁.group = k₂.group) :
    generate_rule_id l₁ = generate_rule_id l₂ := by
  have hk : k₁ = k₂ := by
    cases k₁; cases k₂
    simp_all
  subst hk
  have hperm : l₁.Perm l₂ := h₁.trans h₂.symm
  have hkeys : ((ruleParams k₁).map Prod.fst).Nodup := by
    simp [ruleParams]
  have hsorted :
      List.insertionSort keyLe l₁ = List.insertionSort keyLe l₂ := by
    apply sorted_perm_nodupKeys_eq
    · exact (List.perm_insertionSort keyLe l₁).trans
        (hperm.trans (List.perm_insertionSort keyLe l₂).symm)
    · exact List.sorted_insertionSort keyLe l₁
    · exact List.sorted_insertionSort keyLe l₂
    · exact ((((List.perm_insertionSort keyLe l₁).trans h₁).map Prod.fst).symm).nodup hkeys
  unfold generate_rule_id jsonDumpsSorted
  rw [hsorted]

/-- Witness for C1 at a concrete RuleKey: the dict in reversed insertion order
hashes to the same RuleId as in construction order. -/
theorem c1_rule_id_deterministic_witness :
    generate_rule_id ((ruleParams wKey).reverse) = generate_rule_id (ruleParams wKey) :=
  c1_rule_id_deterministic wKey wKey ((ruleParams wKey).reverse) (ruleParams wKey)
    ((ruleParams wKey).reverse_perm) (List.Perm.refl _) rfl rfl rfl rfl rfl rfl rfl

/-! ### C9 -/

/-- Counterexample for C9: a non-empty admitted trade set consisting of one
open trade (so "every closed trade exits strictly after entry" holds
vacuously) yields an empty equity curve — there is no first value equal
to 1.0. -/
theorem c9_counterexample :
    (run_static_portfolio [trOpen]).used_trades ≠ [] ∧
    (∀ t ∈ (run_static_portfolio [trOpen]).used_trades, t.exit_date = none) ∧
    (run_static_portfolio [trOpen]).equity_curve = [] := by decide

/-- C9 (amended). Whenever the admitted trade set holds at least one *closed*
trade and every closed admitted trade's exit date is strictly after its entry
date, the returned equity curve is indexed by strictly increasing dates and
its first value equals 1.0. (The claim as stated, with only "admitted set
non-empty", fails when every admitted trade is open: the equity curve is then
empty.) -/
theorem c9_equity_starts_at_one (trades : List Trade)
    (hclosed : ∃ t ∈ (run_static_portfolio trades).used_trades, t.exit_date.isSome)
    (hstrict : ∀ t ∈ (run_static_portfolio trades).used_trades,
        ∀ e, t.exit_date = some e → t.entry_date < e) :
    ((run_static_portfolio trades).equity_curve.map Prod.fst).Sorted (· < ·) ∧
    ((run_static_portfolio trades).equity_curve.head?).map Prod.snd = some 1 := by
  rw [run_static_portfolio_equity]
  exact equity_head_one _ hclosed hstrict

/-- Witness for C9's amended theorem: a two-trade portfolio whose equity curve
starts at 1.0 on day 1. -/
theorem c9_equity_starts_at_one_witness :
    (((run_static_portfolio [u1, u2]).equity_curve.map Prod.fst).Sorted (· < ·) ∧
      ((run_static_portfolio [u1, u2]).equity_curve.head?).map Prod.snd = some 1) := by
  have hu : (run_static_portfolio [u1, u2]).used_trades = [u1, u2] := by decide
  refine c9_equity_starts_at_one [u1, u2] ?_ ?_
  · rw [hu]
    exact ⟨u1, by simp, by decide⟩
  · rw [hu]
    intro t ht e he
    rcases List.mem_cons.mp ht with rfl | ht
    · injection (show (some 3 : Option ℕ) = some e from he) with h3
      show (1 : ℕ) < e
      omega
    · rcases List.mem_cons.mp ht with rfl | ht
      · injection (show (some 5 : Option ℕ) = some e from he) with h5
        show (1 : ℕ) < e
        omega
      · cases ht

/-! ### C4 -/

/-- C4. Exit-day attribution in the Portfolio Simulator: on a simulated day
with at least one exiting closed trade the daily return is the sum of the
exiting trades' returns divided by the number of closed admitted trades open
that day (`entry_date ≤ day ≤ exit_date`); a day with no exits contributes 0;
the equity curve carries the same date index and its values are the
cumulative products of `1 + daily return` (the value at index `i` is the
product of the first `i + 1` growth factors); and the simulator's returned
equity curve is exactly this construction over its admitted trade set. -/
theorem c4_daily_return_attribution :
    (∀ (trades : List Trade) (day : ℕ),
        (∀ t ∈ closedOf trades, ∀ e, t.exit_date = some e → t.entry_date ≤ e) →
        ((closedOf trades).filter (fun t => decide (t.exit_date = some day)) ≠ [] →
          dayRet (closedOf trades) day =
            (((closedOf trades).filter (fun t => decide (t.exit_date = some day))).map
                (fun t => t.ret.getD 0)).sum /
              (((closedOf trades).filter (fun t => isOpenOn t day)).length : ℚ)) ∧
        ((closedOf trades).filter (fun t => decide (t.exit_date = some day)) = [] →
          dayRet (closedOf trades) day = 0)) ∧
    (∀ daily : List (ℕ × ℚ),
        (equityCurve daily).map Prod.fst = daily.map Prod.fst ∧
        (equityCurve daily).map Prod.snd = cumprod (daily.map (fun p => 1 + p.2))) ∧
    (∀ (l : List ℚ) (i : ℕ), i < l.length →
        (cumprod l)[i]? = some ((l.take (i + 1)).prod)) ∧
    (∀ trades : List Trade,
        (run_static_portfolio trades).equity_curve =
          equityCurve (daily_returns_from_trades ((run_static_portfolio trades).used_trades))) := by
  refine ⟨?_, fun daily => ⟨equityCurve_map_fst daily, equityCurve_map_snd daily⟩,
    fun l i h => cumprodAux_getElem? l 1 i h |>.trans (by rw [one_mul]),
    run_static_portfolio_equity⟩
  intro trades day hok
  constructor
  · intro hne
    obtain ⟨t₁, ht₁⟩ := List.exists_mem_of_ne_nil _ hne
    have ht₁f := List.mem_filter.mp ht₁
    have ht₁exit : t₁.exit_date = some day := of_decide_eq_true ht₁f.2
    have ht₁open : isOpenOn t₁ day = true := by
      simp only [isOpenOn, ht₁exit, Bool.and_eq_true, decide_eq_true_eq]
      exact ⟨hok t₁ ht₁f.1 day ht₁exit, le_refl day⟩
    have hopens : (closedOf trades).filter (fun t => isOpenOn t day) ≠ [] := by
      intro h
      have hmem : t₁ ∈ (closedOf trades).filter (fun t => isOpenOn t day) :=
        List.mem_filter.mpr ⟨ht₁f.1, ht₁open⟩
      rw [h] at hmem
      cases hmem
    simp only [dayRet]
    rw [if_neg (by simpa [List.isEmpty_iff] using hopens),
      if_neg (by simpa [List.isEmpty_iff] using hne)]
    rw [List.sum_map_mul_right, mul_one_div]
  · intro hnil
    exact dayRet_of_no_exit _ _ hnil

/-- Witness for C4: two sector trades both open on day 3, one exiting that day,
and a concrete cumulative-product index lookup. -/
theorem c4_daily_return_attribution_witness :
    (dayRet (closedOf [u1, u2]) 3 =
        (((closedOf [u1, u2]).filter (fun t => decide (t.exit_date = some 3))).map
            (fun t => t.ret.getD 0)).sum /
          (((closedOf [u1, u2]).filter (fun t => isOpenOn t 3)).length : ℚ)) ∧
    (cumprod [2, 3])[1]? = some (([2, 3].take 2).prod) := by
  constructor
  · refine (c4_daily_return_attribution.1 [u1, u2] 3 ?_).1 (by decide)
    intro t ht e he
    rcases List.mem_cons.mp (List.mem_of_mem_filter ht) with rfl | ht'
    · injection (show (some 3 : Option ℕ) = some e from he) with h3
      show (1 : ℕ) ≤ e
      omega
    · rcases List.mem_cons.mp ht' with rfl | ht''
      · injection (show (some 5 : Option ℕ) = some e from he) with h5
        show (1 : ℕ) ≤ e
        omega
      · cases ht''
  · exact c4_daily_return_attribution.2.2.1 [2, 3] 1 (by decide)

/-! ### C7 helper lemmas -/

theorem sector_open_filter_eq (closed : List Trade) (sector : String) (day : ℕ) :
    (closed.filter (fun t => isOpenOn t day)).filter (fun t => decide (t.group = sector)) =
      closed.filter (fun t => decide (t.group = sector) && isOpenOn t day) := by
  rw [List.filter_filter]

theorem sector_exits_filter_eq (closed : List Trade) (sector : String) (day : ℕ)
    (hok : ∀ t ∈ closed, ∀ e, t.exit_date = some e → t.entry_date ≤ e) :
    (closed.filter (fun t => decide (t.group = sector) && isOpenOn t day)).filter
        (fun t => decide (t.exit_date = some day)) =
      closed.filter (fun t => decide (t.group = sector) && decide (t.exit_date = some day)) := by
  rw [List.filter_filter]
  apply List.filter_congr
  intro t ht
  by_cases hexit : t.exit_date = some day
  · have hopen : isOpenOn t day = true := by
      simp only [isOpenOn, hexit, Bool.and_eq_true, decide_eq_true_eq]
      exact ⟨hok t ht day hexit, le_refl day⟩
    simp [hexit, hopen]
  · simp [hexit]

/-! ### C7 -/

/-- C7. Sector daily-return attribution: on a business day, a sector's daily
return is the sum over the sector's trades exiting exactly that day of `ret`
divided by the number of the sector's trades open that day; with open trades
but no exits (or no open trades at all) the day contributes 0; in particular,
with two sector trades open on day 3 of which exactly one exits with
`ret = 0.04`, the sector's daily return is 0.02. -/
theorem c7_sector_equal_weight_exit :
    (∀ (closed : List Trade) (sector : String) (day : ℕ),
      (∀ t ∈ closed, ∀ e, t.exit_date = some e → t.entry_date ≤ e) →
      (closed.filter (fun t => decide (t.group = sector) && decide (t.exit_date = some day)) ≠ [] →
        sector_daily_ret closed sector day =
          ((closed.filter
              (fun t => decide (t.group = sector) && decide (t.exit_date = some day))).map
                (fun t => t.ret.getD 0)).sum /
            ((closed.filter (fun t => decide (t.group = sector) && isOpenOn t day)).length : ℚ)) ∧
      (closed.filter (fun t => decide (t.group = sector) && decide (t.exit_date = some day)) = [] →
        sector_daily_ret closed sector day = 0)) ∧
    sector_daily_ret [u1, u2] ("EN") 3 = 1 / 50 := by
  constructor
  · intro closed sector day hok
    constructor
    · intro hne
      obtain ⟨t₁, ht₁⟩ := List.exists_mem_of_ne_nil _ hne
      have ht₁f := List.mem_filter.mp ht₁
      have ht₁and := ht₁f.2
      simp only [Bool.and_eq_true, decide_eq_true_eq] at ht₁and
      have ht₁open : isOpenOn t₁ day = true := by
        simp only [isOpenOn, ht₁and.2, Bool.and_eq_true, decide_eq_true_eq]
        exact ⟨hok t₁ ht₁f.1 day ht₁and.2, le_refl day⟩
      have hd : t₁ ∈ closed.filter (fun t => isOpenOn t day) :=
        List.mem_filter.mpr ⟨ht₁f.1, ht₁open⟩
      have hsmem : t₁ ∈ (closed.filter (fun t => isOpenOn t day)).filter
          (fun t => decide (t.group = sector)) :=
        List.mem_filter.mpr ⟨hd, by simp [ht₁and.1]⟩
      have hemem : t₁ ∈ ((closed.filter (fun t => isOpenOn t day)).filter
          (fun t => decide (t.group = sector))).filter
            (fun t => decide (t.exit_date = some day)) :=
        List.mem_filter.mpr ⟨hsmem, by simp [ht₁and.2]⟩
      simp only [sector_daily_ret]
      rw [if_neg (by intro hemp; rw [List.isEmpty_iff] at hemp; rw [hemp] at hd; cases hd),
        if_neg (by intro hemp; rw [List.isEmpty_iff] at hemp; rw [hemp] at hsmem; cases hsmem),
        if_neg (by intro hemp; rw [List.isEmpty_iff] at hemp; rw [hemp] at hemem; cases hemem)]
      rw [List.sum_map_mul_right, mul_one_div]
      rw [sector_open_filter_eq, sector_exits_filter_eq closed sector day hok]
    · intro hnil
      simp only [sector_daily_ret]
      split
      · rfl
      · split
        · rfl
        · rw [if_pos]
          rw [List.isEmpty_iff, sector_open_filter_eq, sector_exits_filter_eq closed sector day hok]
          exact hnil
  · norm_num [sector_daily_ret, isOpenOn, u1, u2, trA]

/-- Witness for C7: the two-trade sector scenario, with the attribution formula
instantiated on day 3. -/
theorem c7_sector_equal_weight_exit_witness :
    sector_daily_ret [u1, u2] ("EN") 3 =
      (([u1, u2].filter
          (fun t => decide (t.group = "EN") && decide (t.exit_date = some 3))).map
            (fun t => t.ret.getD 0)).sum /
        (([u1, u2].filter (fun t => decide (t.group = "EN") && isOpenOn t 3)).length : ℚ) := by
  refine (c7_sector_equal_weight_exit.1 [u1, u2] ("EN") 3 ?_).1 (by decide)
  intro t ht e he
  rcases List.mem_cons.mp ht with rfl | ht'
  · injection (show (some 3 : Option ℕ) = some e from he) with h3
    show (1 : ℕ) ≤ e
    omega
  · rcases List.mem_cons.mp ht' with rfl | ht''
    · injection (show (some 5 : Option ℕ) = some e from he) with h5
      show (1 : ℕ) ≤ e
      omega
    · cases ht''

/-! ### C8 helper lemma -/

theorem evaluate_ok_iff (p : StrictParams) (row : SectorRow) :
    (evaluate_sector_weighted_strict p row).1 = true ↔
      (¬ row.mean < p.min_mean ∧ ¬ row.win_rate < p.min_win_rate ∧
       ¬ row.sharpe < p.min_sharpe ∧ ¬ row.sortino < p.min_sortino ∧
       ¬ row.stability < p.min_stability ∧ ¬ row.max_dd < p.min_max_dd) := by
  simp only [evaluate_sector_weighted_strict]
  split_ifs <;> simp_all

/-! ### C8 -/

/-- C8. Investability is antitone in each threshold: with the sector metrics
fixed, raising any threshold (in particular any single one of the six while
the others stay put, which the pointwise hypotheses subsume) can only turn
`is_investable` off, never on; a sector is investable exactly when its reason
list is empty; and the reason list carries exactly one line per failed
criterion. -/
theorem c8_investability_antitone :
    (∀ (p q : StrictParams) (row : SectorRow),
        p.min_mean ≤ q.min_mean → p.min_win_rate ≤ q.min_win_rate →
        p.min_sharpe ≤ q.min_sharpe → p.min_sortino ≤ q.min_sortino →
        p.min_stability ≤ q.min_stability → p.min_max_dd ≤ q.min_max_dd →
        (evaluate_sector_weighted_strict q row).1 = true →
        (evaluate_sector_weighted_strict p row).1 = true) ∧
    (∀ (p : StrictParams) (row : SectorRow),
        (evaluate_sector_weighted_strict p row).1 = true ↔
          (evaluate_sector_weighted_strict p row).2 = []) ∧
    (∀ (p : StrictParams) (row : SectorRow),
        (evaluate_sector_weighted_strict p row).2.length =
          (if row.mean < p.min_mean then 1 else 0) +
          (if row.win_rate < p.min_win_rate then 1 else 0) +
          (if row.sharpe < p.min_sharpe then 1 else 0) +
          (if row.sortino < p.min_sortino then 1 else 0) +
          (if row.stability < p.min_stability then 1 else 0) +
          (if row.max_dd < p.min_max_dd then 1 else 0)) := by
  refine ⟨?_, ?_, ?_⟩
  · intro p q row h1 h2 h3 h4 h5 h6 hq
    rw [evaluate_ok_iff] at hq ⊢
    obtain ⟨a, b, c, d, e, f⟩ := hq
    exact ⟨fun h => a (lt_of_lt_of_le h h1), fun h => b (lt_of_lt_of_le h h2),
      fun h => c (lt_of_lt_of_le h h3), fun h => d (lt_of_lt_of_le h h4),
      fun h => e (lt_of_lt_of_le h h5), fun h => f (lt_of_lt_of_le h h6)⟩
  · intro p row
    simp only [evaluate_sector_weighted_strict]
    split_ifs <;> simp
  · intro p row
    simp only [evaluate_sector_weighted_strict]
    split_ifs <;> simp

/-- Witness for C8: raising `min_mean` from 0 to 1 with the other thresholds
fixed keeps a sector that passes the tighter gate passing the looser one. -/
theorem c8_investability_antitone_witness :
    (evaluate_sector_weighted_strict
        { min_mean := 0, min_win_rate := 0, min_sharpe := 0, min_sortino := 0,
          min_stability := 0, min_max_dd := 0 }
        { mean := 1, win_rate := 1, sharpe := 1, sortino := 1, stability := 1,
          max_dd := 0 }).1 = true :=
  c8_investability_antitone.1
    { min_mean := 0, min_win_rate := 0, min_sharpe := 0, min_sortino := 0,
      min_stability := 0, min_max_dd := 0 }
    { min_mean := 1, min_win_rate := 0, min_sharpe := 0, min_sortino := 0,
      min_stability := 0, min_max_dd := 0 }
    { mean := 1, win_rate := 1, sharpe := 1, sortino := 1, stability := 1, max_dd := 0 }
    (by norm_num) (le_refl _) (le_refl _) (le_refl _) (le_refl _) (le_refl _)
    (by norm_num [evaluate_sector_weighted_strict])

/-! ### C3 helper lemmas -/

theorem length_split_by_ret :
    ∀ l : List Trade,
      l.length = (l.filterMap Trade.ret).length + (l.filter (fun t => t.ret.isNone)).length := by
  intro l
  induction l with
  | nil => rfl
  | cons t ts ih =>
    cases h : t.ret with
    | none => simp [List.filterMap_cons, h, ih]; omega
    | some r =>
      simp [List.filterMap_cons, h, ih]
      omega

theorem pos_count_eq :
    ∀ l : List Trade,
      ((l.filterMap Trade.ret).filter (fun r => decide (0 < r))).length =
        (l.filter (fun t =>
          match t.ret with
          | some r => decide (0 < r)
          | none => false)).length := by
  intro l
  induction l with
  | nil => rfl
  | cons t ts ih =>
    cases h : t.ret with
    | none => simpa [List.filterMap_cons, h] using ih
    | some r =>
      by_cases hr : 0 < r
      · simpa [List.filterMap_cons, h, hr] using ih
      · simpa [List.filterMap_cons, h, hr] using ih

theorem groupKeys_mem_exists (trades : List Trade) (k : RuleKey) (hk : k ∈ groupKeys trades) :
    ∃ t ∈ trades, ruleKeyOf t = k := by
  simpa [groupKeys] using List.mem_dedup.mp hk

/-! ### C3 -/

/-- Counterexample for C3: a two-row group in which one row's `ret` is absent.
`score_rules` aggregates with `("ret", "size")` and `np.mean(x > 0.0)`, so
`n_trades` counts the absent-`ret` row (2, not the claimed 1) and `win_rate`
keeps it in the denominator (1/2, not the claimed 1/1); the row really is in
the `score_rules` output. -/
theorem c3_counterexample :
    aggForKey [trA, trB] wKey ∈ score_rules [trA, trB] ∧
    (aggForKey [trA, trB] wKey).n_trades = 2 ∧
    (([trA, trB].filter (fun t => decide (ruleKeyOf t = wKey))).filter
      (fun t => t.ret.isSome)).length = 1 ∧
    (aggForKey [trA, trB] wKey).win_rate = 1 / 2 := by
  have hfil : [trA, trB].filter (fun t => decide (ruleKeyOf t = wKey)) = [trA, trB] := by decide
  refine ⟨List.mem_map_of_mem (aggForKey [trA, trB]) (by decide), ?_, ?_, ?_⟩
  · decide
  · rw [hfil]
    decide
  · simp only [aggForKey, hfil]
    norm_num [trA, trB, List.filterMap_cons]

/-- C3 (amended). For every input trade table and every row of `score_rules`:
the row's group is non-empty; `n_trades` counts ALL rows of the group — those
with `ret` present plus those with `ret` absent; `avg_ret_full` is the mean of
`ret` over the present rows only; `win_rate` is the number of present rows
with `ret > 0` divided by the total group size (absent rows stay in the
denominator); and `max_dd` is the minimum `ret` over the present rows only.
(The claim as stated — that rows with absent `ret` are excluded from every
aggregate — fails for `n_trades` and `win_rate`, which use pandas `size` and
`np.mean(x > 0.0)`.) -/
theorem c3_rule_aggregates (trades : List Trade) (row : RuleStatsRow)
    (hrow : row ∈ score_rules trades) :
    0 < row.n_trades ∧
    row.n_trades =
      ((trades.filter (fun t => decide (ruleKeyOf t = row.key))).filterMap Trade.ret).length +
        ((trades.filter (fun t => decide (ruleKeyOf t = row.key))).filter
          (fun t => t.ret.isNone)).length ∧
    ((trades.filter (fun t => decide (ruleKeyOf t = row.key))).filterMap Trade.ret ≠ [] →
      row.avg_ret_full =
        some (((trades.filter (fun t => decide (ruleKeyOf t = row.key))).filterMap Trade.ret).sum /
          (((trades.filter (fun t => decide (ruleKeyOf t = row.key))).filterMap Trade.ret).length :
            ℚ))) ∧
    row.win_rate =
      ((((trades.filter (fun t => decide (ruleKeyOf t = row.key))).filterMap Trade.ret).filter
          (fun r => decide (0 < r))).length : ℚ) / (row.n_trades : ℚ) ∧
    row.max_dd = ((trades.filter (fun t => decide (ruleKeyOf t = row.key))).filterMap Trade.ret).min? := by
  obtain ⟨k, hk, rfl⟩ := List.mem_map.mp hrow
  have hkey : (aggForKey trades k).key = k := rfl
  rw [hkey]
  obtain ⟨t₀, ht₀, hkt₀⟩ := groupKeys_mem_exists trades k hk
  have ht₀f : t₀ ∈ trades.filter (fun t => decide (ruleKeyOf t = k)) :=
    List.mem_filter.mpr ⟨ht₀, by simp [hkt₀]⟩
  refine ⟨?_, ?_, ?_, ?_, ?_⟩
  · show 0 < (trades.filter (fun t => decide (ruleKeyOf t = k))).length
    exact List.length_pos.mpr (fun h => by rw [h] at ht₀f; cases ht₀f)
  · exact length_split_by_ret _
  · intro hne
    show (if ((trades.filter (fun t => decide (ruleKeyOf t = k))).filterMap Trade.ret).isEmpty
        then none else _) = _
    rw [if_neg (by simpa [List.isEmpty_iff] using hne)]
  · show (((trades.filter (fun t => decide (ruleKeyOf t = k))).filter (fun t =>
        match t.ret with
        | some r => decide (0 < r)
        | none => false)).length : ℚ) / _ = _
    rw [← pos_count_eq]
    rfl
  · rfl

/-- Witness for C3's amended theorem, at the concrete two-row table. -/
theorem c3_rule_aggregates_witness :
    0 < (aggForKey [trA, trB] wKey).n_trades ∧
    (aggForKey [trA, trB] wKey).n_trades =
      (([trA, trB].filter (fun t => decide (ruleKeyOf t = (aggForKey [trA, trB] wKey).key))).filterMap
          Trade.ret).length +
        (([trA, trB].filter (fun t =>
          decide (ruleKeyOf t = (aggForKey [trA, trB] wKey).key))).filter
            (fun t => t.ret.isNone)).length ∧
    (([trA, trB].filter (fun t =>
        decide (ruleKeyOf t = (aggForKey [trA, trB] wKey).key))).filterMap Trade.ret ≠ [] →
      (aggForKey [trA, trB] wKey).avg_ret_full =
        some ((([trA, trB].filter (fun t =>
            decide (ruleKeyOf t = (aggForKey [trA, trB] wKey).key))).filterMap Trade.ret).sum /
          ((([trA, trB].filter (fun t =>
            decide (ruleKeyOf t = (aggForKey [trA, trB] wKey).key))).filterMap Trade.ret).length :
              ℚ))) ∧
    (aggForKey [trA, trB] wKey).win_rate =
      (((([trA, trB].filter (fun t =>
          decide (ruleKeyOf t = (aggForKey [trA, trB] wKey).key))).filterMap Trade.ret).filter
            (fun r => decide (0 < r))).length : ℚ) / ((aggForKey [trA, trB] wKey).n_trades : ℚ) ∧
    (aggForKey [trA, trB] wKey).max_dd =
      (([trA, trB].filter (fun t =>
        decide (ruleKeyOf t = (aggForKey [trA, trB] wKey).key))).filterMap Trade.ret).min? :=
  c3_rule_aggregates [trA, trB] (aggForKey [trA, trB] wKey)
    (List.mem_map_of_mem (aggForKey [trA, trB]) (by decide))

/-! ### C5 -/

/-- C5. Signal Detector decision rule and fan-out: up is chosen exactly when
the up-fraction reaches participation and is at least the down-fraction; down
exactly when the down-fraction reaches participation and strictly exceeds the
up-fraction; otherwise no direction; a window whose chosen side has fewer than
2 leaders, or with no lagger after excluding leaders, emits nothing; and on
the concrete 3-instrument window with returns [0.06, 0.05, −0.004] and
parameters (group_thresh 0.03, participation 0.6, lagger_max_move 0.01) the
detector emits exactly one up signal with the first two instruments as
leaders and the third as the lagger. -/
theorem c5_signal_decision_fanout :
    (∀ (p : SigParams) (wr : List (String × ℚ)),
        (∃ ls, chooseDirection p wr = some (1, ls)) ↔
          (p.participation ≤ fracUp p wr ∧ fracDown p wr ≤ fracUp p wr)) ∧
    (∀ (p : SigParams) (wr : List (String × ℚ)),
        (∃ ls, chooseDirection p wr = some (-1, ls)) ↔
          (p.participation ≤ fracDown p wr ∧ fracUp p wr < fracDown p wr)) ∧
    (∀ (p : SigParams) (wr : List (String × ℚ)),
        chooseDirection p wr = none ↔
          (¬(p.participation ≤ fracUp p wr ∧ fracDown p wr ≤ fracUp p wr) ∧
           ¬(p.participation ≤ fracDown p wr ∧ fracUp p wr < fracDown p wr))) ∧
    (∀ (gname : String) (p : SigParams) (wr : List (String × ℚ)) (ed sd : ℕ)
        (dir : ℤ) (ls : List String),
        chooseDirection p wr = some (dir, ls) → ls.length < MIN_LEADERS_PER_SIGNAL →
          detectWindow gname p wr ed sd = []) ∧
    (∀ (gname : String) (p : SigParams) (wr : List (String × ℚ)) (ed sd : ℕ)
        (dir : ℤ) (ls : List String),
        chooseDirection p wr = some (dir, ls) →
          (laggersOf p wr ls).length < MIN_LAGGERS_PER_SIGNAL →
          detectWindow gname p wr ed sd = []) ∧
    detect_lag_signals_for_group scenSeries ("SCN") scenParams = [scnSignal] := by
  refine ⟨?_, ?_, ?_, ?_, ?_, ?_⟩
  · intro p wr
    unfold chooseDirection
    split_ifs with h1 h2
    · simpa using h1
    · simp [h1]
    · simp [h1]
  · intro p wr
    unfold chooseDirection
    split_ifs with h1 h2
    · constructor
      · rintro ⟨ls, hls⟩
        simp at hls
      · rintro ⟨-, hlt⟩
        exact absurd hlt (not_lt.mpr h1.2)
    · simpa using h2
    · simp [h2]
  · intro p wr
    unfold chooseDirection
    split_ifs with h1 h2
    · simp [h1]
    · simp [h2]
    · simp [h1, h2]
  · intro gname p wr ed sd dir ls hch hlen
    unfold detectWindow
    split
    · rfl
    · rw [hch]
      simp [hlen]
  · intro gname p wr ed sd dir ls hch hlag
    unfold detectWindow
    split
    · rfl
    · rw [hch]
      by_cases hl : ls.length < MIN_LEADERS_PER_SIGNAL
      · simp [hl]
      · simp [hl, hlag]
  · have hs1 : (("I3" : String) = "I1") = False := eq_false (by decide)
    have hs2 : (("I3" : String) = "I2") = False := eq_false (by decide)
    have hs3 : (("I1" : String) = "I2") = False := eq_false (by decide)
    have hs4 : (("I2" : String) = "I1") = False := eq_false (by decide)
    norm_num [detect_lag_signals_for_group, nRowsOf, scenSeries, scenParams, windowRets,
      detectWindow, stdBelowFloor, sampleVar, MIN_WINDOW_STD, chooseDirection, fracUp,
      fracDown, moversUp, moversDown, laggersOf, MIN_LEADERS_PER_SIGNAL,
      MIN_LAGGERS_PER_SIGNAL, scnSignal, List.range', Rat.mkRat_eq_div, abs_neg,
      abs_of_pos, hs1, hs2, hs3, hs4]

/-- Witness for C5: two concrete windows whose chosen direction exists but
which emit nothing — one with a single leader, one with no lagger. -/
theorem c5_signal_decision_fanout_witness :
    detectWindow ("G") ⟨1, 0, 0, 0⟩ [("A", 1)] 1 0 = [] ∧
    detectWindow ("G") ⟨1, 0, 0, 0⟩ [("A", 1), ("B", 1)] 1 0 = [] := by
  constructor
  · refine c5_signal_decision_fanout.2.2.2.1 ("G") _ _ 1 0 1 (["A"]) ?_ (by decide)
    norm_num [chooseDirection, fracUp, fracDown, moversUp, moversDown]
  · refine c5_signal_decision_fanout.2.2.2.2.1 ("G") _ _ 1 0 1 (["A", "B"]) ?_ ?_
    · norm_num [chooseDirection, fracUp, fracDown, moversUp, moversDown]
    · norm_num [laggersOf, MIN_LAGGERS_PER_SIGNAL]

/-! ### C6 -/

/-- C6. Open-trade emission: for a signal whose ticker column and date are in
the price series, every matching grid combination whose entry index is in
range but whose exit index runs past the end of the series contributes a
trade row to the `backtest_signals` output with absent `exit_date`, absent
`ret` and `is_open = True` — the row is emitted, not dropped, and no error
state exists; a combination is skipped (yields no row) exactly when its entry
index is out of range; and every signal 4-tuple crossed with the fixed
entry-lag and hold grids is present in the trade-parameter grid. -/
theorem c6_open_trade_emission :
    (∀ (series : List (String × List ℚ)) (signals : List Signal) (sig : Signal)
        (c : String × List ℚ) (p : TradeParams),
        sig ∈ signals →
        series.find? (fun x => decide (x.1 = sig.ticker)) = some c →
        sig.signal_date < c.2.length →
        p ∈ adaptiveRuleGrid signals →
        paramsMatch p sig = true →
        sig.signal_date + p.entry_lag < c.2.length →
        c.2.length ≤ sig.signal_date + p.entry_lag + p.hold_days →
        openTradeOf sig p ∈ backtest_signals series signals ∧
          (openTradeOf sig p).exit_date = none ∧ (openTradeOf sig p).ret = none ∧
          (openTradeOf sig p).is_open = true) ∧
    (∀ (ts : List ℚ) (sig : Signal) (p : TradeParams),
        tradeFor ts sig p = none ↔ ts.length ≤ sig.signal_date + p.entry_lag) ∧
    (∀ (signals : List Signal) (sig : Signal) (e h : ℕ), sig ∈ signals →
        e ∈ entryLags → h ∈ holdsList →
        (⟨sig.lookback, sig.group_thresh, sig.participation, sig.lagger_max_move, e, h⟩ :
          TradeParams) ∈ adaptiveRuleGrid signals) := by
  refine ⟨?_, ?_, ?_⟩
  · intro series signals sig c p hsig hfind hloc hgrid hmatch hentry hexit
    have htf : tradeFor c.2 sig p = some (openTradeOf sig p) := by
      simp only [tradeFor]
      rw [if_neg (by omega), if_neg (by omega)]
    refine ⟨?_, rfl, rfl, rfl⟩
    unfold backtest_signals
    apply List.mem_flatMap.mpr
    refine ⟨sig, hsig, ?_⟩
    unfold tradesForSignal
    rw [hfind]
    dsimp only
    rw [if_pos hloc]
    exact List.mem_filterMap.mpr ⟨p, List.mem_filter.mpr ⟨hgrid, hmatch⟩, htf⟩
  · intro ts sig p
    simp only [tradeFor]
    split_ifs with h1 h2
    · simpa using h1
    · simp [h1]
    · simp [h1]
  · intro signals sig e h hsig he hh
    simp only [adaptiveRuleGrid, uniqueParamSets, List.mem_flatMap, List.mem_map]
    exact ⟨(sig.lookback, sig.group_thresh, sig.participation, sig.lagger_max_move),
      List.mem_dedup.mpr (List.mem_map.mpr ⟨sig, hsig, rfl⟩), e, he, h, hh, rfl⟩

/-- Witness for C6: the signal on the last date of a six-day series with
entry lag 0 and hold 5 emits the open trade into the output. -/
theorem c6_open_trade_emission_witness :
    openTradeOf genSignal ⟨10, mkRat 3 100, mkRat 3 5, mkRat 1 100, 0, 5⟩ ∈
        backtest_signals genSeries [genSignal] ∧
      (openTradeOf genSignal ⟨10, mkRat 3 100, mkRat 3 5, mkRat 1 100, 0, 5⟩).exit_date = none ∧
      (openTradeOf genSignal ⟨10, mkRat 3 100, mkRat 3 5, mkRat 1 100, 0, 5⟩).ret = none ∧
      (openTradeOf genSignal ⟨10, mkRat 3 100, mkRat 3 5, mkRat 1 100, 0, 5⟩).is_open = true :=
  c6_open_trade_emission.1 genSeries [genSignal] genSignal
    ("X", [100, 101, 102, 103, 104, 105]) ⟨10, mkRat 3 100, mkRat 3 5, mkRat 1 100, 0, 5⟩
    (by simp) rfl (by decide) (by decide) (by decide) (by decide) (by decide)
